import Mathlib

/-!
Shallow embedding of the stock-ledger and balance-accounting engine of
`src/app.py` (inventory-pro-system).

The persistent store (an sqlite database with tables `transactions`,
`stock_summary`, `expenses`, `payments`) is modelled as a `Store` record of
lists; the `REAL` columns are modelled as exact rationals (`Rat`); the
`INTEGER PRIMARY KEY AUTOINCREMENT` ids are modelled by per-table counters
that start at 1 and never decrease.  SQL statements are translated into the
corresponding list operations: `INSERT` appends at the end, `DELETE ...
WHERE id = ?` filters the matching row out, `SELECT ... WHERE id = ?` with
`fetchone()` is `List.find?`, and `ORDER BY id DESC` is a sort by id,
descending.  The display-only reformatting of the `date` column in the
`load_*` helpers (`pd.to_datetime` / `strftime`) is not modelled: it
changes only the textual presentation of a column no engine rule reads.
-/

namespace InventoryPro

/-- A row of the `transactions` table (schema in `init_db`). -/
structure TransactionRow where
  id : Nat
  date : String
  category : String
  item_type : String
  unit : String
  quantity : Rat
  rate : Rat
  amount : Rat
  transaction_type : String
  cash_credit : String
  party_name : String
  vehicle_name : String
  site_name : String
  remarks : String
deriving Repr, DecidableEq

/-- The 13-tuple passed to `insert_transaction` (all columns except `id`). -/
structure TxData where
  date : String
  category : String
  item_type : String
  unit : String
  quantity : Rat
  rate : Rat
  amount : Rat
  transaction_type : String
  cash_credit : String
  party_name : String
  vehicle_name : String
  site_name : String
  remarks : String
deriving Repr, DecidableEq

/-- A row of the `stock_summary` table; its primary key is the triple
`(category, item_type, unit)`. -/
structure StockRow where
  category : String
  item_type : String
  unit : String
  current_stock : Rat
deriving Repr, DecidableEq

/-- The primary-key triple of `stock_summary`. -/
abbrev StockKey := String × String × String

/-- Key of a stock row. -/
def StockRow.key (r : StockRow) : StockKey := (r.category, r.item_type, r.unit)

/-- Key triple of a transaction row. -/
def TransactionRow.key (t : TransactionRow) : StockKey :=
  (t.category, t.item_type, t.unit)

/-- Key triple of a transaction insert tuple. -/
def TxData.key (d : TxData) : StockKey := (d.category, d.item_type, d.unit)

/-- A row of the `expenses` table. -/
structure ExpenseRow where
  id : Nat
  date : String
  expense_type : String
  amount : Rat
  remarks : String
deriving Repr, DecidableEq

/-- The 4-tuple passed to `insert_expense`. -/
structure ExpData where
  date : String
  expense_type : String
  amount : Rat
  remarks : String
deriving Repr, DecidableEq

/-- A row of the `payments` table. -/
structure PaymentRow where
  id : Nat
  date : String
  party_name : String
  payment_type : String
  amount : Rat
  remarks : String
deriving Repr, DecidableEq

/-- The 5-tuple passed to `insert_payment`. -/
structure PayData where
  date : String
  party_name : String
  payment_type : String
  amount : Rat
  remarks : String
deriving Repr, DecidableEq

/-- The whole database: the four tables plus the autoincrement counters. -/
structure Store where
  transactions : List TransactionRow
  next_tx_id : Nat
  expenses : List ExpenseRow
  next_exp_id : Nat
  payments : List PaymentRow
  next_pay_id : Nat
  stock_summary : List StockRow
deriving Repr, DecidableEq

/-- `init_db` on a fresh database: all tables empty, autoincrement at 1. -/
def init_db : Store :=
  { transactions := [], next_tx_id := 1,
    expenses := [], next_exp_id := 1,
    payments := [], next_pay_id := 1,
    stock_summary := [] }

/-- `update_stock`: the upserting
`INSERT ... ON CONFLICT(category, item_type, unit) DO UPDATE SET
current_stock = current_stock + excluded.current_stock`.
If a row with the key exists its `current_stock` is incremented by
`qty_change`, otherwise a new row with `current_stock = qty_change` is
appended. -/
def update_stock (ss : List StockRow) (category item_type unit : String)
    (qty_change : Rat) : List StockRow :=
  if ss.any (fun r => decide (r.key = (category, item_type, unit))) then
    ss.map (fun r =>
      if r.key = (category, item_type, unit) then
        { r with current_stock := r.current_stock + qty_change }
      else r)
  else
    ss ++ [{ category := category, item_type := item_type, unit := unit,
             current_stock := qty_change }]

/-- `SELECT current_stock FROM stock_summary WHERE (category,item_type,unit) = k`
(first matching row, as sqlite would return for the primary key). -/
def lookup_stock (ss : List StockRow) (k : StockKey) : Option Rat :=
  (ss.find? (fun r => decide (r.key = k))).map (fun r => r.current_stock)

/-- The stock value of a key, with an absent key read as 0 (never posted). -/
def stockOf (ss : List StockRow) (k : StockKey) : Rat :=
  (lookup_stock ss k).getD 0

/-- The stored row an insert tuple becomes once the id `n` is assigned. -/
def TxData.toRow (data : TxData) (n : Nat) : TransactionRow :=
  { id := n, date := data.date, category := data.category,
    item_type := data.item_type, unit := data.unit,
    quantity := data.quantity, rate := data.rate, amount := data.amount,
    transaction_type := data.transaction_type,
    cash_credit := data.cash_credit, party_name := data.party_name,
    vehicle_name := data.vehicle_name, site_name := data.site_name,
    remarks := data.remarks }

/-- `insert_transaction`: append the row with the next autoincrement id,
then `update_stock(data[1], data[2], data[3], data[4])`, i.e. adjust the
stock of the key of the row by the signed `quantity`. -/
def insert_transaction (s : Store) (data : TxData) : Store :=
  { s with
    transactions := s.transactions ++ [data.toRow s.next_tx_id],
    next_tx_id := s.next_tx_id + 1,
    stock_summary :=
      update_stock s.stock_summary data.category data.item_type data.unit
        data.quantity }

/-- `insert_expense`: append the row with the next autoincrement id. -/
def insert_expense (s : Store) (data : ExpData) : Store :=
  { s with
    expenses := s.expenses ++
      [{ id := s.next_exp_id, date := data.date,
         expense_type := data.expense_type, amount := data.amount,
         remarks := data.remarks }],
    next_exp_id := s.next_exp_id + 1 }

/-- `insert_payment`: append the row with the next autoincrement id. -/
def insert_payment (s : Store) (data : PayData) : Store :=
  { s with
    payments := s.payments ++
      [{ id := s.next_pay_id, date := data.date,
         party_name := data.party_name, payment_type := data.payment_type,
         amount := data.amount, remarks := data.remarks }],
    next_pay_id := s.next_pay_id + 1 }

/-- One iteration of the loop body of `delete_records` for a single id:
for the `transactions` table, look the row up and, when found, reverse its
stock contribution before deleting; for the other tables just delete. -/
def delete_one (table : String) (s : Store) (rid : Nat) : Store :=
  if table = "transactions" then
    match s.transactions.find? (fun t => decide (t.id = rid)) with
    | some row =>
        { s with
          stock_summary :=
            update_stock s.stock_summary row.category row.item_type row.unit
              (-row.quantity),
          transactions := s.transactions.filter (fun t => decide (t.id ≠ rid)) }
    | none =>
        { s with
          transactions := s.transactions.filter (fun t => decide (t.id ≠ rid)) }
  else if table = "expenses" then
    { s with expenses := s.expenses.filter (fun e => decide (e.id ≠ rid)) }
  else if table = "payments" then
    { s with payments := s.payments.filter (fun p => decide (p.id ≠ rid)) }
  else s

/-- `delete_records(table, record_ids)`: process the ids in order,
independently of one another. -/
def delete_records (table : String) (record_ids : List Nat) (s : Store) :
    Store :=
  record_ids.foldl (delete_one table) s

/-- Insert an element into a list that is sorted descending by `key`. -/
def insert_desc {α : Type} (key : α → Nat) (a : α) : List α → List α
  | [] => [a]
  | b :: rest =>
      if key b ≤ key a then a :: b :: rest else b :: insert_desc key a rest

/-- Sort a list descending by `key` (the model of `ORDER BY id DESC`). -/
def sort_desc {α : Type} (key : α → Nat) : List α → List α
  | [] => []
  | b :: rest => insert_desc key b (sort_desc key rest)

/-- `load_transactions`: `SELECT * FROM transactions ORDER BY id DESC`. -/
def load_transactions (s : Store) : List TransactionRow :=
  sort_desc (fun t => t.id) s.transactions

/-- `load_expenses`: `SELECT * FROM expenses ORDER BY id DESC`. -/
def load_expenses (s : Store) : List ExpenseRow :=
  sort_desc (fun e => e.id) s.expenses

/-- `load_payments`: `SELECT * FROM payments ORDER BY id DESC`. -/
def load_payments (s : Store) : List PaymentRow :=
  sort_desc (fun p => p.id) s.payments

/-!
The Stock and Credit page (balance calculator), `src/app.py` lines 404-431.
It works on the freshly loaded dataframes `history_df = load_transactions()`
and `payments_df = load_payments()`.
-/

/-- `full_credit_df = history_df[history_df[cash_credit].str.lower() == credit]`. -/
def full_credit_df (s : Store) : List TransactionRow :=
  (load_transactions s).filter (fun t => decide (t.cash_credit.toLower = "credit"))

/-- `all_p_list`: the distinct party names of the transaction log (the
Python also sorts them alphabetically; the order of the list is
presentation only and no balance rule depends on it). -/
def all_p_list (s : Store) : List String :=
  ((load_transactions s).map (fun t => t.party_name)).dedup

/-- `b_sale`: credit-sale turnover of party `p`. -/
def b_sale (s : Store) (p : String) : Rat :=
  (((full_credit_df s).filter
      (fun t => decide (t.party_name = p ∧ t.transaction_type = "sale"))).map
    (fun t => t.amount)).sum

/-- `b_pur`: credit-purchase turnover of party `p`. -/
def b_pur (s : Store) (p : String) : Rat :=
  (((full_credit_df s).filter
      (fun t => decide (t.party_name = p ∧ t.transaction_type = "purchase"))).map
    (fun t => t.amount)).sum

/-- `r_pay`: Inward payments received from party `p`. -/
def r_pay (s : Store) (p : String) : Rat :=
  (((load_payments s).filter
      (fun r => decide (r.party_name = p ∧ r.payment_type = "Inward"))).map
    (fun r => r.amount)).sum

/-- `p_pay`: Outward payments made to party `p`. -/
def p_pay (s : Store) (p : String) : Rat :=
  (((load_payments s).filter
      (fun r => decide (r.party_name = p ∧ r.payment_type = "Outward"))).map
    (fun r => r.amount)).sum

/-- `net_receivable = b_sale - r_pay`. -/
def net_receivable (s : Store) (p : String) : Rat := b_sale s p - r_pay s p

/-- `net_payable = b_pur - p_pay`. -/
def net_payable (s : Store) (p : String) : Rat := b_pur s p - p_pay s p

/-- The accumulators of the party loop of the Stock and Credit page:
`outstanding_parties`, `detailed_list` (party, clamped receivable, clamped
payable) and the running totals `total_rec`, `total_pay`. -/
structure CreditSummary where
  outstanding_parties : List String
  detailed_list : List (String × Rat × Rat)
  total_rec : Rat
  total_pay : Rat
deriving Repr, DecidableEq

/-- The body of `for p in all_p_list:` on the Stock and Credit page. -/
def credit_step (s : Store) (acc : CreditSummary) (p : String) :
    CreditSummary :=
  if net_receivable s p > 1 / 100 ∨ net_payable s p > 1 / 100 then
    { outstanding_parties := acc.outstanding_parties ++ [p],
      detailed_list := acc.detailed_list ++
        [(p, max 0 (net_receivable s p), max 0 (net_payable s p))],
      total_rec := acc.total_rec + max 0 (net_receivable s p),
      total_pay := acc.total_pay + max 0 (net_payable s p) }
  else acc

/-- The whole party loop of the Stock and Credit page, starting from the
empty accumulators (`detailed_list = []`, `outstanding_parties = []`,
`total_rec = 0`, `total_pay = 0`).  The float literal `0.01` is the exact
rational `1 / 100` in this model. -/
def credit_report (s : Store) : CreditSummary :=
  (all_p_list s).foldl (credit_step s)
    { outstanding_parties := [], detailed_list := [],
      total_rec := 0, total_pay := 0 }

/-!
Operation sequences: every way the engine mutates the store.
-/

/-- An engine operation (the write entry points of the helper layer). -/
inductive Op where
  | insert_tx (d : TxData)
  | insert_exp (d : ExpData)
  | insert_pay (d : PayData)
  | delete (table : String) (ids : List Nat)
deriving Repr

/-- Apply one operation to the store. -/
def apply_op (s : Store) : Op → Store
  | .insert_tx d => insert_transaction s d
  | .insert_exp d => insert_expense s d
  | .insert_pay d => insert_payment s d
  | .delete table ids => delete_records table ids s

/-- Run a sequence of operations from the freshly initialised database. -/
def run (ops : List Op) : Store := ops.foldl apply_op init_db

/-- Sum of the `quantity` column over the currently present transactions
whose key triple is `k`. -/
def sumQty (txs : List TransactionRow) (k : StockKey) : Rat :=
  ((txs.filter (fun t => decide (t.key = k))).map (fun t => t.quantity)).sum

/-- Well-formedness the autoincrement primary key guarantees: every stored
id is below the counter, and ids are pairwise distinct. -/
def WF (s : Store) : Prop :=
  (∀ t ∈ s.transactions, t.id < s.next_tx_id) ∧
    (s.transactions.map (fun t => t.id)).Nodup

/-- The ledger-consistency invariant of the spec: every key reads as the
sum of the quantities of the live transactions with that key. -/
def LedgerInv (s : Store) : Prop :=
  ∀ k : StockKey, stockOf s.stock_summary k = sumQty s.transactions k

/-- States the engine can actually produce satisfy both the ledger
invariant and the primary-key discipline. -/
def Good (s : Store) : Prop := LedgerInv s ∧ WF s

/-- The net-receivable formula as the specification words it (for the
refinement comparison): sum of `amount` over transactions with
`cash_credit = "credit"`, the given party and `transaction_type = "sale"`,
minus the sum of `amount` over Inward payments of the party. -/
def spec_net_receivable (s : Store) (p : String) : Rat :=
  ((s.transactions.filter (fun t =>
      decide (t.cash_credit = "credit" ∧ t.party_name = p ∧
        t.transaction_type = "sale"))).map (fun t => t.amount)).sum -
  ((s.payments.filter (fun r =>
      decide (r.party_name = p ∧ r.payment_type = "Inward"))).map
    (fun r => r.amount)).sum

/-- The net-payable formula as the specification words it: credit
purchases from the party minus Outward payments to the party. -/
def spec_net_payable (s : Store) (p : String) : Rat :=
  ((s.transactions.filter (fun t =>
      decide (t.cash_credit = "credit" ∧ t.party_name = p ∧
        t.transaction_type = "purchase"))).map (fun t => t.amount)).sum -
  ((s.payments.filter (fun r =>
      decide (r.party_name = p ∧ r.payment_type = "Outward"))).map
    (fun r => r.amount)).sum

/-!  Concrete sample data (the scenarios of the specification), used by the
closed instances below. -/

/-- Scenario A: purchase of 100 bag Cement / JK Strong at rate 300, cash. -/
def sample_purchase : TxData :=
  { date := "2024-01-01 10:00", category := "Cement",
    item_type := "JK Strong", unit := "bag", quantity := 100, rate := 300,
    amount := 30000, transaction_type := "purchase", cash_credit := "cash",
    party_name := "ABC Traders", vehicle_name := "GJ-01",
    site_name := "Site A", remarks := "" }

/-- Scenario B: credit sale of 40 bags of the same key at rate 350 to
ABC Traders; the collaborator layer stores sales with negative quantity. -/
def sample_sale : TxData :=
  { date := "2024-01-02 11:00", category := "Cement",
    item_type := "JK Strong", unit := "bag", quantity := -40, rate := 350,
    amount := 14000, transaction_type := "sale", cash_credit := "credit",
    party_name := "ABC Traders", vehicle_name := "GJ-02",
    site_name := "Site A", remarks := "" }

/-- A sale-typed record whose quantity is positive, disagreeing with the
sign convention of the collaborator layer. -/
def sample_unnormalized_sale : TxData :=
  { date := "2024-01-02 11:00", category := "Cement",
    item_type := "JK Strong", unit := "bag", quantity := 100, rate := 350,
    amount := 35000, transaction_type := "sale", cash_credit := "credit",
    party_name := "ABC Traders", vehicle_name := "GJ-02",
    site_name := "Site A", remarks := "" }

/-- Scenario C: Inward settlement of 5000 from ABC Traders. -/
def sample_payment : PayData :=
  { date := "2024-01-03 09:00", party_name := "ABC Traders",
    payment_type := "Inward", amount := 5000, remarks := "" }

/-- A payment with a non-positive amount (invalid per the spec). -/
def bad_payment : PayData :=
  { date := "2024-01-01 00:00", party_name := "ABC Traders",
    payment_type := "Inward", amount := -100, remarks := "" }

/-- A transaction tuple with an empty party name and non-positive quantity
and amount (invalid per the spec). -/
def bad_tx : TxData :=
  { date := "2024-01-01 00:00", category := "Cement",
    item_type := "JK Strong", unit := "bag", quantity := -5, rate := 300,
    amount := -1500, transaction_type := "purchase", cash_credit := "cash",
    party_name := "", vehicle_name := "", site_name := "", remarks := "" }

/-- A sample expense tuple. -/
def sample_expense : ExpData :=
  { date := "2024-01-04 00:00", expense_type := "Diesel", amount := 700,
    remarks := "" }

/-- A reachable store holding one purchase, one credit sale, one expense
and one payment. -/
def sample_store : Store :=
  run [Op.insert_tx sample_purchase, Op.insert_tx sample_sale,
    Op.insert_exp sample_expense, Op.insert_pay sample_payment]

/-- A reachable store holding only a payment whose amount is negative and
whose party never appears in the transaction log. -/
def ghost_store : Store :=
  run [Op.insert_pay
    { date := "2024-01-01 00:00", party_name := "Ghost Co",
      payment_type := "Inward", amount := -100, remarks := "" }]

/-- A reachable store holding a single purchase transaction. -/
def tiny_store : Store := run [Op.insert_tx sample_purchase]

/-- A concrete one-row stock summary. -/
def sample_summary : List StockRow :=
  [{ category := "Cement", item_type := "JK Strong", unit := "bag",
     current_stock := 100 }]

/-- The outstanding test of the party loop as a Boolean predicate. -/
def is_outstanding (s : Store) (q : String) : Bool :=
  decide (net_receivable s q > 1 / 100 ∨ net_payable s q > 1 / 100)

/-!  Lemmas about `update_stock` and `stockOf`. -/

theorem key_set_stock (r : StockRow) (d : Rat) :
    ({ r with current_stock := d } : StockRow).key = r.key := rfl

theorem stockOf_nil (k : StockKey) : stockOf [] k = 0 := rfl

theorem stockOf_cons (r : StockRow) (ss : List StockRow) (k : StockKey) :
    stockOf (r :: ss) k = if r.key = k then r.current_stock else stockOf ss k := by
  by_cases h : r.key = k
  · simp [stockOf, lookup_stock, List.find?_cons, h]
  · simp [stockOf, lookup_stock, List.find?_cons, h]

theorem stockOf_map_ne (ss : List StockRow) (k : StockKey) (d : Rat)
    (k' : StockKey) (h : k' ≠ k) :
    stockOf
        (ss.map (fun r =>
          if r.key = k then { r with current_stock := r.current_stock + d }
          else r)) k'
      = stockOf ss k' := by
  induction ss with
  | nil => rfl
  | cons r rest ih =>
      rw [List.map_cons, stockOf_cons, stockOf_cons]
      by_cases hr : r.key = k
      · have h1 : ¬ ({ r with current_stock := r.current_stock + d } :
            StockRow).key = k' := by
          rw [key_set_stock, hr]
          exact fun hh => h hh.symm
        have h2 : ¬ r.key = k' := by
          rw [hr]; exact fun hh => h hh.symm
        rw [if_pos hr, if_neg h1, if_neg h2, ih]
      · rw [if_neg hr, ih]

theorem stockOf_map_self (ss : List StockRow) (k : StockKey) (d : Rat)
    (hany : ss.any (fun r => decide (r.key = k)) = true) :
    stockOf
        (ss.map (fun r =>
          if r.key = k then { r with current_stock := r.current_stock + d }
          else r)) k
      = stockOf ss k + d := by
  induction ss with
  | nil => simp at hany
  | cons r rest ih =>
      rw [List.map_cons, stockOf_cons, stockOf_cons]
      by_cases hr : r.key = k
      · have h1 : ({ r with current_stock := r.current_stock + d } :
            StockRow).key = k := by rw [key_set_stock, hr]
        rw [if_pos hr, if_pos h1, if_pos hr]
      · have hany' : rest.any (fun r => decide (r.key = k)) = true := by
          rcases List.any_eq_true.mp hany with ⟨x, hx, hxk⟩
          rcases List.mem_cons.mp hx with hx | hx
          · exact absurd (by simpa using hxk) (hx ▸ hr)
          · exact List.any_eq_true.mpr ⟨x, hx, hxk⟩
        rw [if_neg hr]
        by_cases hrk : r.key = k
        · exact absurd hrk hr
        · rw [if_neg hrk, if_neg hrk, ih hany']

theorem stockOf_update_stock (ss : List StockRow) (c i u : String) (d : Rat)
    (k' : StockKey) :
    stockOf (update_stock ss c i u d) k'
      = stockOf ss k' + if k' = (c, i, u) then d else 0 := by
  unfold update_stock
  by_cases hany : ss.any (fun r => decide (r.key = (c, i, u))) = true
  · rw [if_pos hany]
    by_cases hk : k' = (c, i, u)
    · rw [if_pos hk, hk, stockOf_map_self ss (c, i, u) d hany]
    · rw [if_neg hk, stockOf_map_ne ss (c, i, u) d k' hk, add_zero]
  · rw [if_neg hany]
    have hall : ∀ r ∈ ss, ¬ r.key = (c, i, u) := by
      intro r hr
      by_contra hkey
      exact hany (List.any_eq_true.mpr ⟨r, hr, by simpa using hkey⟩)
    by_cases hk : k' = (c, i, u)
    · have hnone : ss.find? (fun r => decide (r.key = k')) = none :=
        List.find?_eq_none.mpr (fun r hr => by
          simp only [decide_eq_true_eq]
          exact hk ▸ hall r hr)
      rw [if_pos hk]
      unfold stockOf lookup_stock
      rw [List.find?_append, hnone, Option.none_or]
      have hfind :
          (List.find? (fun r => decide (r.key = k'))
            ([{ category := c, item_type := i, unit := u,
                current_stock := d }] : List StockRow)) =
          some { category := c, item_type := i, unit := u,
                 current_stock := d } := by
        apply List.find?_cons_of_pos
        simp [StockRow.key, hk]
      rw [hfind]
      simp
    · have hnew :
          (List.find? (fun r => decide (r.key = k'))
            ([{ category := c, item_type := i, unit := u,
                current_stock := d }] : List StockRow)) = none := by
        apply List.find?_eq_none.mpr
        intro r hr
        simp only [List.mem_singleton] at hr
        simp only [decide_eq_true_eq, hr, StockRow.key]
        exact fun hh => hk hh.symm
      rw [if_neg hk]
      unfold stockOf lookup_stock
      rw [List.find?_append, hnew]
      cases hcase : ss.find? (fun r => decide (r.key = k')) <;> simp

/-!  Lemmas about `sumQty`. -/

theorem sumQty_nil (k : StockKey) : sumQty [] k = 0 := rfl

theorem sumQty_cons (t : TransactionRow) (l : List TransactionRow)
    (k : StockKey) :
    sumQty (t :: l) k = (if t.key = k then t.quantity else 0) + sumQty l k := by
  by_cases h : t.key = k <;> simp [sumQty, List.filter_cons, h]

theorem sumQty_append (l₁ l₂ : List TransactionRow) (k : StockKey) :
    sumQty (l₁ ++ l₂) k = sumQty l₁ k + sumQty l₂ k := by
  simp [sumQty, List.filter_append]

theorem sumQty_single (t : TransactionRow) (k : StockKey) :
    sumQty [t] k = if t.key = k then t.quantity else 0 := by
  by_cases h : t.key = k <;> simp [sumQty, List.filter_cons, h]

/-!  Lemmas about deleting one transaction row by id. -/

theorem filter_ne_of_find_none (l : List TransactionRow) (rid : Nat)
    (h : l.find? (fun t => decide (t.id = rid)) = none) :
    l.filter (fun t => decide (t.id ≠ rid)) = l := by
  refine List.filter_eq_self.mpr (fun t ht => ?_)
  have := List.find?_eq_none.mp h t ht
  simpa using fun heq => this (by simpa using heq)

theorem sumQty_filter_of_find (l : List TransactionRow) (rid : Nat)
    (row : TransactionRow)
    (hfind : l.find? (fun t => decide (t.id = rid)) = some row)
    (hnd : (l.map (fun t => t.id)).Nodup) (k : StockKey) :
    sumQty (l.filter (fun t => decide (t.id ≠ rid))) k
      = sumQty l k - (if row.key = k then row.quantity else 0) := by
  induction l with
  | nil => simp at hfind
  | cons t rest ih =>
      rw [List.map_cons, List.nodup_cons] at hnd
      by_cases hid : t.id = rid
      · have hrow : row = t := by
          rw [List.find?_cons_of_pos rest (by simpa using hid)] at hfind
          exact (Option.some_inj.mp hfind).symm
        have hrest : rest.filter (fun x => decide (x.id ≠ rid)) = rest := by
          refine List.filter_eq_self.mpr (fun x hx => ?_)
          have hxm : x.id ∈ rest.map (fun t => t.id) := List.mem_map_of_mem _ hx
          simpa using fun heq => hnd.1 (by rw [heq, ← hid] at hxm; exact hxm)
        rw [List.filter_cons]
        have hdec : (decide (t.id ≠ rid)) = false := by simp [hid]
        rw [hdec]
        simp only [Bool.false_eq_true, if_false, hrest, hrow, sumQty_cons]
        ring
      · rw [List.find?_cons_of_neg rest (by simpa using hid)] at hfind
        rw [List.filter_cons]
        have hdec : (decide (t.id ≠ rid)) = true := by simp [hid]
        rw [hdec]
        simp only [if_true, sumQty_cons, ih hfind hnd.2]
        ring

/-!  Preservation of `Good` by every engine operation. -/

theorem good_init : Good init_db := by
  refine ⟨fun k => rfl, fun t ht => absurd ht (List.not_mem_nil t), ?_⟩
  simp [init_db]

theorem good_insert_transaction (s : Store) (d : TxData) (h : Good s) :
    Good (insert_transaction s d) := by
  obtain ⟨hinv, hbound, hnd⟩ := h
  refine ⟨?_, ?_, ?_⟩
  · intro k
    simp only [insert_transaction]
    rw [stockOf_update_stock, hinv k, sumQty_append, sumQty_single]
    have hkey : (d.toRow s.next_tx_id).key = (d.category, d.item_type, d.unit) :=
      rfl
    rw [hkey]
    by_cases hk : k = (d.category, d.item_type, d.unit)
    · rw [if_pos hk, if_pos hk.symm]; rfl
    · rw [if_neg hk, if_neg (fun hh => hk hh.symm), add_zero]
  · intro t ht
    simp only [insert_transaction] at ht ⊢
    rcases List.mem_append.mp ht with ht | ht
    · exact Nat.lt_succ_of_lt (hbound t ht)
    · rw [List.mem_singleton.mp ht]
      exact Nat.lt_succ_self _
  · simp only [insert_transaction, List.map_append, List.map_cons,
      List.map_nil]
    rw [List.nodup_append]
    refine ⟨hnd, List.nodup_singleton _, ?_⟩
    intro a ha hb
    rw [List.mem_singleton.mp hb] at ha
    rcases List.mem_map.mp ha with ⟨t, ht, hid⟩
    exact absurd (hid ▸ hbound t ht) (Nat.lt_irrefl _)

theorem good_insert_expense (s : Store) (d : ExpData) (h : Good s) :
    Good (insert_expense s d) := h

theorem good_insert_payment (s : Store) (d : PayData) (h : Good s) :
    Good (insert_payment s d) := h

theorem good_delete_one (table : String) (s : Store) (rid : Nat)
    (h : Good s) : Good (delete_one table s rid) := by
  obtain ⟨hinv, hbound, hnd⟩ := h
  by_cases ht : table = "transactions"
  · simp only [delete_one, if_pos ht]
    cases hfind : s.transactions.find? (fun t => decide (t.id = rid)) with
    | none =>
        have hfilter := filter_ne_of_find_none s.transactions rid hfind
        exact ⟨fun k => by rw [hfilter]; exact hinv k,
          fun t htm => hbound t (by rw [← hfilter]; exact htm),
          by rw [hfilter]; exact hnd⟩
    | some row =>
        refine ⟨?_, ?_, ?_⟩
        · intro k
          rw [stockOf_update_stock, hinv k,
            sumQty_filter_of_find s.transactions rid row hfind hnd k]
          have hkeq : (row.category, row.item_type, row.unit) = row.key := rfl
          rw [hkeq]
          by_cases hk : k = row.key
          · rw [if_pos hk, if_pos (hk ▸ rfl : row.key = k)]
            ring
          · rw [if_neg hk, if_neg (fun hh => hk hh.symm)]
            ring
        · intro t htm
          exact hbound t (List.mem_of_mem_filter htm)
        · exact (List.Sublist.map (fun t => t.id)
            (List.filter_sublist s.transactions)).nodup hnd
  · by_cases he : table = "expenses"
    · simp only [delete_one, if_neg ht, if_pos he]
      exact ⟨hinv, hbound, hnd⟩
    · by_cases hp : table = "payments"
      · simp only [delete_one, if_neg ht, if_neg he, if_pos hp]
        exact ⟨hinv, hbound, hnd⟩
      · simp only [delete_one, if_neg ht, if_neg he, if_neg hp]
        exact ⟨hinv, hbound, hnd⟩

theorem good_delete_records (table : String) (ids : List Nat) (s : Store)
    (h : Good s) : Good (delete_records table ids s) := by
  induction ids generalizing s with
  | nil => exact h
  | cons rid rest ih =>
      exact ih (delete_one table s rid) (good_delete_one table s rid h)

theorem good_apply_op (s : Store) (op : Op) (h : Good s) :
    Good (apply_op s op) := by
  cases op with
  | insert_tx d => exact good_insert_transaction s d h
  | insert_exp d => exact good_insert_expense s d h
  | insert_pay d => exact good_insert_payment s d h
  | delete table ids => exact good_delete_records table ids s h

theorem good_foldl (l : List Op) (s : Store) (h : Good s) :
    Good (l.foldl apply_op s) := by
  induction l generalizing s with
  | nil => exact h
  | cons op rest ih => exact ih (apply_op s op) (good_apply_op s op h)

theorem good_run (ops : List Op) : Good (run ops) :=
  good_foldl ops init_db good_init

/-!  Further characterisations of `update_stock` and `delete_one`. -/

theorem keys_update_stock (ss : List StockRow) (c i u : String) (d : Rat) :
    (update_stock ss c i u d).map StockRow.key
      = if (c, i, u) ∈ ss.map StockRow.key then ss.map StockRow.key
        else ss.map StockRow.key ++ [(c, i, u)] := by
  have hiff : (ss.any (fun r => decide (r.key = (c, i, u))) = true)
      ↔ (c, i, u) ∈ ss.map StockRow.key := by
    rw [List.any_eq_true]
    constructor
    · rintro ⟨r, hr, hk⟩
      exact List.mem_map.mpr ⟨r, hr, by simpa using hk⟩
    · intro h
      rcases List.mem_map.mp h with ⟨r, hr, hk⟩
      exact ⟨r, hr, by simp [hk]⟩
  unfold update_stock
  by_cases hany : ss.any (fun r => decide (r.key = (c, i, u))) = true
  · rw [if_pos hany, if_pos (hiff.mp hany), List.map_map]
    refine List.map_congr_left (fun r hr => ?_)
    by_cases hk : r.key = (c, i, u)
    · simp only [Function.comp_apply, if_pos hk]
      exact key_set_stock r (r.current_stock + d)
    · simp only [Function.comp_apply, if_neg hk]
  · rw [if_neg hany, if_neg (fun h => hany (hiff.mpr h)), List.map_append]
    rfl

theorem lookup_mem_keys (ss : List StockRow) (k : StockKey)
    (h : k ∈ ss.map StockRow.key) : ∃ v, lookup_stock ss k = some v := by
  induction ss with
  | nil => simp at h
  | cons r rest ih =>
      by_cases hk : r.key = k
      · exact ⟨r.current_stock, by
          unfold lookup_stock
          rw [List.find?_cons_of_pos rest (by simpa using hk)]
          rfl⟩
      · have hmem : k ∈ rest.map StockRow.key := by
          rcases List.mem_map.mp h with ⟨x, hx, hxk⟩
          rcases List.mem_cons.mp hx with rfl | hx'
          · exact absurd hxk hk
          · exact List.mem_map.mpr ⟨x, hx', hxk⟩
        rcases ih hmem with ⟨v, hv⟩
        refine ⟨v, ?_⟩
        unfold lookup_stock at hv ⊢
        rw [List.find?_cons_of_neg rest (by simpa using hk)]
        exact hv

theorem lookup_update_stock_self (ss : List StockRow) (c i u : String)
    (d : Rat) :
    lookup_stock (update_stock ss c i u d) (c, i, u)
      = some (stockOf ss (c, i, u) + d) := by
  have hmem : (c, i, u) ∈ (update_stock ss c i u d).map StockRow.key := by
    rw [keys_update_stock]
    by_cases hm : (c, i, u) ∈ ss.map StockRow.key
    · rw [if_pos hm]; exact hm
    · rw [if_neg hm]
      exact List.mem_append.mpr (Or.inr (List.mem_singleton.mpr rfl))
  rcases lookup_mem_keys _ _ hmem with ⟨v, hv⟩
  have hst := stockOf_update_stock ss c i u d (c, i, u)
  rw [if_pos rfl] at hst
  have hv' : stockOf (update_stock ss c i u d) (c, i, u) = v := by
    simp [stockOf, hv]
  rw [hv, ← hst, ← hv']

theorem delete_one_found (s : Store) (rid : Nat) (row : TransactionRow)
    (hfind : s.transactions.find? (fun t => decide (t.id = rid)) = some row) :
    delete_one "transactions" s rid =
      { s with
        stock_summary := update_stock s.stock_summary row.category
          row.item_type row.unit (-row.quantity),
        transactions :=
          s.transactions.filter (fun t => decide (t.id ≠ rid)) } := by
  unfold delete_one
  rw [if_pos rfl, hfind]

/-!  The claims. -/

/-- Claim C1: ledger consistency invariant.  For every sequence of engine
operations starting from the empty store, after each operation and for every
key, the `stock_summary` value (an absent key reading as 0, never posted)
equals the sum of the `quantity` fields of the currently present
transactions with that key. -/
theorem C1_ledger_consistency (ops : List Op) (k : StockKey) :
    stockOf (run ops).stock_summary k = sumQty (run ops).transactions k :=
  (good_run ops).1 k

/-- Claim C2: reversal exactness.  Inserting a transaction and then
deleting it by its assigned id (the id counter of the pre-state) returns
the stock value of the key of the record to exactly its previous value;
the store only needs the primary-key bound every database state has. -/
theorem C2_reversal_exactness (s : Store) (d : TxData)
    (hwf : ∀ t ∈ s.transactions, t.id < s.next_tx_id) :
    stockOf (delete_records "transactions" [s.next_tx_id]
        (insert_transaction s d)).stock_summary d.key
      = stockOf s.stock_summary d.key := by
  have hfind : (insert_transaction s d).transactions.find?
      (fun t => decide (t.id = s.next_tx_id)) = some (d.toRow s.next_tx_id) := by
    show (s.transactions ++ [d.toRow s.next_tx_id]).find? _ = _
    rw [List.find?_append]
    have h1 : s.transactions.find?
        (fun t => decide (t.id = s.next_tx_id)) = none :=
      List.find?_eq_none.mpr (fun t htm => by
        simp only [decide_eq_true_eq]
        exact Nat.ne_of_lt (hwf t htm))
    rw [h1, Option.none_or]
    exact List.find?_cons_of_pos _ (by simp [TxData.toRow])
  have hdr : delete_records "transactions" [s.next_tx_id]
      (insert_transaction s d)
        = delete_one "transactions" (insert_transaction s d) s.next_tx_id :=
    rfl
  rw [hdr, delete_one_found _ _ _ hfind]
  show stockOf
      (update_stock
        (update_stock s.stock_summary d.category d.item_type d.unit
          d.quantity)
        d.category d.item_type d.unit (-d.quantity)) d.key
    = stockOf s.stock_summary d.key
  have hkey : d.key = (d.category, d.item_type, d.unit) := rfl
  rw [stockOf_update_stock, stockOf_update_stock, if_pos hkey, if_pos hkey]
  ring

/-- Claim C5: deleting a non-existent transaction id is a no-op.  An id
with no matching record changes nothing at all, and removing it from the
front of a batch leaves the effect of the batch on the remaining ids
unchanged. -/
theorem C5_missing_id_noop (s : Store) (rid : Nat) (ids : List Nat)
    (h : ∀ t ∈ s.transactions, t.id ≠ rid) :
    delete_one "transactions" s rid = s ∧
      delete_records "transactions" (rid :: ids) s
        = delete_records "transactions" ids s := by
  have hfind : s.transactions.find? (fun t => decide (t.id = rid)) = none :=
    List.find?_eq_none.mpr (fun t htm => by simpa using h t htm)
  have hone : delete_one "transactions" s rid = s := by
    unfold delete_one
    rw [if_pos rfl, hfind]
    show { s with
        transactions :=
          s.transactions.filter (fun t => decide (t.id ≠ rid)) } = s
    rw [filter_ne_of_find_none s.transactions rid hfind]
  refine ⟨hone, ?_⟩
  show delete_records "transactions" ids (delete_one "transactions" s rid)
    = delete_records "transactions" ids s
  rw [hone]

/-- Claim C6: the engine performs no input validation.  `insert_payment`
writes a payment with a negative amount, and `insert_transaction` writes a
record with an empty party name and non-positive quantity and amount,
without any rejection: the rows land in the tables unchanged. -/
theorem C6_no_engine_validation :
    (insert_payment init_db bad_payment).payments
        = [{ id := 1, date := "2024-01-01 00:00",
             party_name := "ABC Traders", payment_type := "Inward",
             amount := -100, remarks := "" }] ∧
      (insert_transaction init_db bad_tx).transactions = [bad_tx.toRow 1] ∧
      bad_payment.amount ≤ 0 ∧ bad_tx.party_name = "" ∧
      bad_tx.quantity ≤ 0 ∧ bad_tx.amount ≤ 0 := by
  refine ⟨rfl, rfl, ?_, rfl, ?_, ?_⟩
  · show (-100 : Rat) ≤ 0
    norm_num
  · show (-5 : Rat) ≤ 0
    norm_num
  · show (-1500 : Rat) ≤ 0
    norm_num

/-- Claim C7: `update_stock` upserts.  An absent key is created with
`current_stock = delta`, a present key has `delta` added to its value, the
key set gains at most the new key (no second row for an existing key), and
no row is ever deleted: the key list is preserved, extended only when the
key was absent. -/
theorem C7_update_stock_upsert (ss : List StockRow) (c i u : String)
    (d : Rat) (hnd : (ss.map StockRow.key).Nodup) :
    (lookup_stock ss (c, i, u) = none →
        lookup_stock (update_stock ss c i u d) (c, i, u) = some d) ∧
      (∀ v, lookup_stock ss (c, i, u) = some v →
        lookup_stock (update_stock ss c i u d) (c, i, u) = some (v + d)) ∧
      ((update_stock ss c i u d).map StockRow.key
        = if (c, i, u) ∈ ss.map StockRow.key then ss.map StockRow.key
          else ss.map StockRow.key ++ [(c, i, u)]) ∧
      ((update_stock ss c i u d).map StockRow.key).Nodup := by
  refine ⟨?_, ?_, keys_update_stock ss c i u d, ?_⟩
  · intro h
    rw [lookup_update_stock_self]
    simp [stockOf, h]
  · intro v h
    rw [lookup_update_stock_self]
    simp [stockOf, h]
  · rw [keys_update_stock]
    by_cases hm : (c, i, u) ∈ ss.map StockRow.key
    · rw [if_pos hm]; exact hnd
    · rw [if_neg hm, List.nodup_append]
      exact ⟨hnd, List.nodup_singleton _,
        fun a ha hb => hm (by rwa [List.mem_singleton.mp hb] at ha)⟩

/-- Frame of `delete_records` on the `expenses` and `payments` tables: it
neither reads nor changes `transactions` or `stock_summary`. -/
theorem delete_records_non_tx_frame (table : String)
    (hne : ¬ table = "transactions") (ids : List Nat) (s : Store) :
    (delete_records table ids s).transactions = s.transactions ∧
      (delete_records table ids s).stock_summary = s.stock_summary := by
  induction ids generalizing s with
  | nil => exact ⟨rfl, rfl⟩
  | cons rid rest ih =>
      have hone : (delete_one table s rid).transactions = s.transactions ∧
          (delete_one table s rid).stock_summary = s.stock_summary := by
        unfold delete_one
        rw [if_neg hne]
        by_cases he : table = "expenses"
        · rw [if_pos he]; exact ⟨rfl, rfl⟩
        · rw [if_neg he]
          by_cases hp : table = "payments"
          · rw [if_pos hp]; exact ⟨rfl, rfl⟩
          · rw [if_neg hp]; exact ⟨rfl, rfl⟩
      have hrec := ih (delete_one table s rid)
      exact ⟨hrec.1.trans hone.1, hrec.2.trans hone.2⟩

/-- Claim C9: frame property of the non-transaction operations.
`insert_expense` changes only the expenses table, `insert_payment` only the
payments table, and `delete_records` on `"expenses"` or `"payments"` leaves
`stock_summary` and `transactions` untouched. -/
theorem C9_frame_non_transaction_ops (s : Store) (e : ExpData)
    (pd : PayData) (ids : List Nat) :
    ((insert_expense s e).transactions = s.transactions ∧
      (insert_expense s e).payments = s.payments ∧
      (insert_expense s e).next_pay_id = s.next_pay_id ∧
      (insert_expense s e).stock_summary = s.stock_summary ∧
      (insert_expense s e).next_tx_id = s.next_tx_id) ∧
    ((insert_payment s pd).transactions = s.transactions ∧
      (insert_payment s pd).expenses = s.expenses ∧
      (insert_payment s pd).next_exp_id = s.next_exp_id ∧
      (insert_payment s pd).stock_summary = s.stock_summary ∧
      (insert_payment s pd).next_tx_id = s.next_tx_id) ∧
    ((delete_records "expenses" ids s).transactions = s.transactions ∧
      (delete_records "expenses" ids s).stock_summary = s.stock_summary) ∧
    ((delete_records "payments" ids s).transactions = s.transactions ∧
      (delete_records "payments" ids s).stock_summary = s.stock_summary) := by
  refine ⟨⟨rfl, rfl, rfl, rfl, rfl⟩, ⟨rfl, rfl, rfl, rfl, rfl⟩, ?_, ?_⟩
  · exact delete_records_non_tx_frame "expenses" (by decide) ids s
  · exact delete_records_non_tx_frame "payments" (by decide) ids s

/-- Claim C10: the stock change of an insert is determined by the stored
signed `quantity` alone.  The key of the record moves by exactly
`quantity`, every other key is unchanged, and two inserts agreeing on
category, item type, unit and quantity produce the same stock table no
matter their transaction type, cash/credit flag, rate or amount — no sign
normalization happens in the engine. -/
theorem C10_stock_change_is_quantity (s : Store) (d : TxData) :
    stockOf (insert_transaction s d).stock_summary d.key
        = stockOf s.stock_summary d.key + d.quantity ∧
      (∀ k : StockKey, ¬ k = d.key →
        stockOf (insert_transaction s d).stock_summary k
          = stockOf s.stock_summary k) ∧
      (∀ d' : TxData, d'.category = d.category → d'.item_type = d.item_type →
        d'.unit = d.unit → d'.quantity = d.quantity →
        (insert_transaction s d').stock_summary
          = (insert_transaction s d).stock_summary) := by
  refine ⟨?_, ?_, ?_⟩
  · show stockOf (update_stock s.stock_summary d.category d.item_type d.unit
        d.quantity) d.key = _
    rw [stockOf_update_stock,
      if_pos (show d.key = (d.category, d.item_type, d.unit) from rfl)]
  · intro k hk
    show stockOf (update_stock s.stock_summary d.category d.item_type d.unit
        d.quantity) k = _
    rw [stockOf_update_stock,
      if_neg (show ¬ k = (d.category, d.item_type, d.unit) from hk), add_zero]
  · intro d' h1 h2 h3 h4
    show update_stock s.stock_summary d'.category d'.item_type d'.unit
        d'.quantity
      = update_stock s.stock_summary d.category d.item_type d.unit d.quantity
    rw [h1, h2, h3, h4]

/-!  The sort used by the `ORDER BY id DESC` reads. -/

theorem perm_insert_desc {α : Type} (key : α → Nat) (a : α) (l : List α) :
    (insert_desc key a l).Perm (a :: l) := by
  induction l with
  | nil => exact List.Perm.refl _
  | cons b rest ih =>
      unfold insert_desc
      by_cases h : key b ≤ key a
      · rw [if_pos h]
      · rw [if_neg h]
        exact (List.Perm.cons b ih).trans (List.Perm.swap a b rest)

theorem perm_sort_desc {α : Type} (key : α → Nat) (l : List α) :
    (sort_desc key l).Perm l := by
  induction l with
  | nil => exact List.Perm.refl _
  | cons b rest ih =>
      exact (perm_insert_desc key b (sort_desc key rest)).trans
        (List.Perm.cons b ih)

theorem sorted_insert_desc {α : Type} (key : α → Nat) (a : α) (l : List α)
    (h : List.Pairwise (fun x y => key y ≤ key x) l) :
    List.Pairwise (fun x y => key y ≤ key x) (insert_desc key a l) := by
  induction l with
  | nil => simp [insert_desc]
  | cons b rest ih =>
      rcases List.pairwise_cons.mp h with ⟨hb, hrest⟩
      unfold insert_desc
      by_cases hle : key b ≤ key a
      · rw [if_pos hle]
        refine List.pairwise_cons.mpr ⟨?_, h⟩
        intro y hy
        rcases List.mem_cons.mp hy with rfl | hy'
        · exact hle
        · exact le_trans (hb y hy') hle
      · rw [if_neg hle]
        refine List.pairwise_cons.mpr ⟨?_, ih hrest⟩
        intro y hy
        rcases List.mem_cons.mp ((perm_insert_desc key a rest).mem_iff.mp hy)
          with rfl | hy'
        · exact Nat.le_of_not_le hle
        · exact hb y hy'

theorem sorted_sort_desc {α : Type} (key : α → Nat) (l : List α) :
    List.Pairwise (fun x y => key y ≤ key x) (sort_desc key l) := by
  induction l with
  | nil => simp [sort_desc]
  | cons b rest ih => exact sorted_insert_desc key b (sort_desc key rest) ih

theorem pairwise_gt_sort_desc {α : Type} (key : α → Nat) (l : List α)
    (hnd : (l.map key).Nodup) :
    List.Pairwise (fun x y => key y < key x) (sort_desc key l) := by
  have hnd' : ((sort_desc key l).map key).Nodup := by
    exact (((perm_sort_desc key l).map key).nodup_iff).mpr hnd
  have hpair : List.Pairwise (fun x y => key x ≠ key y) (sort_desc key l) := by
    have hh : List.Pairwise (fun a b => a ≠ b) ((sort_desc key l).map key) :=
      hnd'
    exact List.pairwise_map.mp hh
  exact ((sorted_sort_desc key l).and hpair).imp
    (fun hxy => lt_of_le_of_ne hxy.1 (Ne.symm hxy.2))

/-- Claim C8: read ordering.  With the pairwise-distinct ids every database
state has, `load_transactions`, `load_expenses` and `load_payments` return
all the rows of their tables in strictly descending id order, i.e. the
most-recent-first order. -/
theorem C8_read_ordering (s : Store)
    (h1 : (s.transactions.map (fun t => t.id)).Nodup)
    (h2 : (s.expenses.map (fun e => e.id)).Nodup)
    (h3 : (s.payments.map (fun p => p.id)).Nodup) :
    (load_transactions s).Perm s.transactions ∧
      List.Pairwise (fun a b => b.id < a.id) (load_transactions s) ∧
      (load_expenses s).Perm s.expenses ∧
      List.Pairwise (fun a b => b.id < a.id) (load_expenses s) ∧
      (load_payments s).Perm s.payments ∧
      List.Pairwise (fun a b => b.id < a.id) (load_payments s) :=
  ⟨perm_sort_desc _ _, pairwise_gt_sort_desc _ _ h1,
    perm_sort_desc _ _, pairwise_gt_sort_desc _ _ h2,
    perm_sort_desc _ _, pairwise_gt_sort_desc _ _ h3⟩

/-!  The balance calculator. -/

theorem toLower_cash : ("cash" : String).toLower = "cash" := by
  rw [String.toLower, String.map_eq]
  decide

theorem toLower_credit : ("credit" : String).toLower = "credit" := by
  rw [String.toLower, String.map_eq]
  decide

theorem sum_map_filter_perm {α : Type} (f : α → Rat) (q : α → Bool)
    (l₁ l₂ : List α) (hp : l₁.Perm l₂) :
    ((l₁.filter q).map f).sum = ((l₂.filter q).map f).sum :=
  ((hp.filter q).map f).sum_eq

/-- Claim C3: balance computation.  Over any store whose `cash_credit`
column holds the enum values `cash`/`credit` of the data model, the nets
the Stock and Credit page computes equal the formulas of the
specification: credit-sale turnover minus Inward payments, and
credit-purchase turnover minus Outward payments, taken over the current
logs. -/
theorem C3_balance_computation (s : Store) (p : String)
    (hcc : ∀ t ∈ s.transactions,
      t.cash_credit = "cash" ∨ t.cash_credit = "credit") :
    net_receivable s p = spec_net_receivable s p ∧
      net_payable s p = spec_net_payable s p := by
  have hperm : (load_transactions s).Perm s.transactions := by
    unfold load_transactions
    exact perm_sort_desc _ _
  have hpay : (load_payments s).Perm s.payments := by
    unfold load_payments
    exact perm_sort_desc _ _
  have htx : ∀ ty : String,
      (((full_credit_df s).filter (fun t =>
          decide (t.party_name = p ∧ t.transaction_type = ty))).map
        (fun t => t.amount)).sum
        = ((s.transactions.filter (fun t =>
            decide (t.cash_credit = "credit" ∧ t.party_name = p ∧
              t.transaction_type = ty))).map (fun t => t.amount)).sum := by
    intro ty
    unfold full_credit_df
    rw [List.filter_filter,
      sum_map_filter_perm (fun t => t.amount) _ _ _ hperm]
    have hcong : s.transactions.filter (fun t =>
        decide (t.party_name = p ∧ t.transaction_type = ty) &&
          decide (t.cash_credit.toLower = "credit"))
        = s.transactions.filter (fun t =>
            decide (t.cash_credit = "credit" ∧ t.party_name = p ∧
              t.transaction_type = ty)) := by
      apply List.filter_congr
      intro t ht
      rcases hcc t ht with h | h
      · simp [h, toLower_cash]
      · simp [h, toLower_credit]
    rw [hcong]
  have hpaysum : ∀ ty : String,
      (((load_payments s).filter (fun r =>
          decide (r.party_name = p ∧ r.payment_type = ty))).map
        (fun r => r.amount)).sum
        = ((s.payments.filter (fun r =>
            decide (r.party_name = p ∧ r.payment_type = ty))).map
          (fun r => r.amount)).sum :=
    fun ty => sum_map_filter_perm (fun r => r.amount) _ _ _ hpay
  constructor
  · unfold net_receivable spec_net_receivable b_sale r_pay
    rw [htx "sale", hpaysum "Inward"]
  · unfold net_payable spec_net_payable b_pur p_pay
    rw [htx "purchase", hpaysum "Outward"]

/-- The party loop of the Stock and Credit page in closed form: it filters
the party list by the outstanding test and accumulates the clamped values
of exactly the parties that pass it. -/
theorem credit_foldl (s : Store) (ps : List String) (acc : CreditSummary) :
    ps.foldl (credit_step s) acc =
      { outstanding_parties :=
          acc.outstanding_parties ++ ps.filter (is_outstanding s),
        detailed_list := acc.detailed_list ++
          (ps.filter (is_outstanding s)).map
            (fun q =>
              (q, max 0 (net_receivable s q), max 0 (net_payable s q))),
        total_rec := acc.total_rec +
          ((ps.filter (is_outstanding s)).map
            (fun q => max 0 (net_receivable s q))).sum,
        total_pay := acc.total_pay +
          ((ps.filter (is_outstanding s)).map
            (fun q => max 0 (net_payable s q))).sum } := by
  induction ps generalizing acc with
  | nil => simp
  | cons q rest ih =>
      rw [List.foldl_cons, ih]
      unfold credit_step
      by_cases hc : net_receivable s q > 1 / 100 ∨ net_payable s q > 1 / 100
      · have hq : is_outstanding s q = true := decide_eq_true hc
        rw [if_pos hc, List.filter_cons_of_pos hq]
        simp [List.append_assoc, add_assoc]
      · have hq : ¬ is_outstanding s q = true :=
          fun h => hc (of_decide_eq_true h)
        rw [if_neg hc, List.filter_cons_of_neg hq]

/-- Claim C4 (amended): outstanding reporting.  The detailed list holds
exactly the outstanding parties with their receivable and payable clamped
at 0 (so no reported value is negative), a party is listed as outstanding
iff it appears in the party list of the transaction log and its net
receivable or net payable exceeds 0.01, and the aggregate totals are the
sums of the clamped values over the outstanding parties. -/
theorem C4_outstanding_reporting (s : Store) (p : String) :
    (credit_report s).detailed_list
        = (credit_report s).outstanding_parties.map
            (fun q =>
              (q, max 0 (net_receivable s q), max 0 (net_payable s q))) ∧
      (p ∈ (credit_report s).outstanding_parties ↔
        p ∈ all_p_list s ∧
          (net_receivable s p > 1 / 100 ∨ net_payable s p > 1 / 100)) ∧
      (credit_report s).total_rec
        = ((credit_report s).outstanding_parties.map
            (fun q => max 0 (net_receivable s q))).sum ∧
      (credit_report s).total_pay
        = ((credit_report s).outstanding_parties.map
            (fun q => max 0 (net_payable s q))).sum ∧
      (∀ q r₁ r₂, (q, r₁, r₂) ∈ (credit_report s).detailed_list →
        0 ≤ r₁ ∧ 0 ≤ r₂) := by
  have hrep : credit_report s =
      { outstanding_parties := (all_p_list s).filter (is_outstanding s),
        detailed_list := ((all_p_list s).filter (is_outstanding s)).map
          (fun q =>
            (q, max 0 (net_receivable s q), max 0 (net_payable s q))),
        total_rec := ((all_p_list s).filter (is_outstanding s)).map
          (fun q => max 0 (net_receivable s q)) |>.sum,
        total_pay := ((all_p_list s).filter (is_outstanding s)).map
          (fun q => max 0 (net_payable s q)) |>.sum } := by
    unfold credit_report
    rw [credit_foldl]
    simp
  rw [hrep]
  refine ⟨rfl, ?_, rfl, rfl, ?_⟩
  · simp [List.mem_filter, is_outstanding]
  · intro q r₁ r₂ hm
    rcases List.mem_map.mp hm with ⟨x, hx, heq⟩
    obtain ⟨hq, h1, h2⟩ :
        x = q ∧ max 0 (net_receivable s x) = r₁ ∧
          max 0 (net_payable s x) = r₂ := by
      simpa [Prod.ext_iff] using heq
    exact ⟨h1 ▸ le_max_left 0 _, h2 ▸ le_max_left 0 _⟩

/-- Claim C4, counterexample to the claim as stated: in the reachable
store holding only an Inward payment of -100 for Ghost Co (a party absent
from the transaction log), the net receivable of Ghost Co exceeds 0.01 and
yet the party is not listed as outstanding, because the party loop ranges
over the parties of the transaction log only. -/
theorem C4_counterexample :
    net_receivable ghost_store "Ghost Co" > 1 / 100 ∧
      "Ghost Co" ∉ (credit_report ghost_store).outstanding_parties := by
  constructor
  · have h : net_receivable ghost_store "Ghost Co" = 100 := by
      norm_num [net_receivable, b_sale, r_pay, full_credit_df,
        load_transactions, load_payments, ghost_store, run, apply_op,
        insert_payment, init_db, sort_desc, insert_desc]
    rw [h]
    norm_num
  · show "Ghost Co" ∉ ([] : List String)
    simp

/-!  Closed instances of the theorems with hypotheses, at concrete
reachable data. -/

/-- Reversal exactness instantiated at the one-purchase store and the
sample credit sale. -/
theorem C2_witness :
    (∀ t ∈ tiny_store.transactions, t.id < tiny_store.next_tx_id) ∧
      stockOf (delete_records "transactions" [tiny_store.next_tx_id]
          (insert_transaction tiny_store sample_sale)).stock_summary
          sample_sale.key
        = stockOf tiny_store.stock_summary sample_sale.key :=
  ⟨by decide, C2_reversal_exactness tiny_store sample_sale (by decide)⟩

/-- Balance computation instantiated at the sample store and party
ABC Traders. -/
theorem C3_witness :
    (∀ t ∈ sample_store.transactions,
        t.cash_credit = "cash" ∨ t.cash_credit = "credit") ∧
      (net_receivable sample_store "ABC Traders"
          = spec_net_receivable sample_store "ABC Traders" ∧
        net_payable sample_store "ABC Traders"
          = spec_net_payable sample_store "ABC Traders") :=
  ⟨by decide, C3_balance_computation sample_store "ABC Traders" (by decide)⟩

/-- Missing-id no-op instantiated at the one-purchase store with the stale
id 99 in front of the live id 1. -/
theorem C5_witness :
    (∀ t ∈ tiny_store.transactions, t.id ≠ 99) ∧
      (delete_one "transactions" tiny_store 99 = tiny_store ∧
        delete_records "transactions" (99 :: [1]) tiny_store
          = delete_records "transactions" [1] tiny_store) :=
  ⟨by decide, C5_missing_id_noop tiny_store 99 [1] (by decide)⟩

/-- Upsert semantics instantiated at the one-row summary and a fresh
key. -/
theorem C7_witness :
    (sample_summary.map StockRow.key).Nodup ∧
      ((lookup_stock sample_summary ("Bricks", "Red Brick", "pcs") = none →
          lookup_stock
            (update_stock sample_summary "Bricks" "Red Brick" "pcs" 500)
            ("Bricks", "Red Brick", "pcs") = some 500) ∧
        (∀ v,
          lookup_stock sample_summary ("Bricks", "Red Brick", "pcs")
              = some v →
            lookup_stock
              (update_stock sample_summary "Bricks" "Red Brick" "pcs" 500)
              ("Bricks", "Red Brick", "pcs") = some (v + 500)) ∧
        ((update_stock sample_summary "Bricks" "Red Brick" "pcs" 500).map
            StockRow.key
          = if ("Bricks", "Red Brick", "pcs")
                ∈ sample_summary.map StockRow.key then
              sample_summary.map StockRow.key
            else
              sample_summary.map StockRow.key ++
                [("Bricks", "Red Brick", "pcs")]) ∧
        ((update_stock sample_summary "Bricks" "Red Brick" "pcs" 500).map
            StockRow.key).Nodup) :=
  ⟨by decide,
    C7_update_stock_upsert sample_summary "Bricks" "Red Brick" "pcs" 500
      (by decide)⟩

/-- Read ordering instantiated at the sample store. -/
theorem C8_witness :
    ((sample_store.transactions.map (fun t => t.id)).Nodup ∧
        (sample_store.expenses.map (fun e => e.id)).Nodup ∧
        (sample_store.payments.map (fun p => p.id)).Nodup) ∧
      ((load_transactions sample_store).Perm sample_store.transactions ∧
        List.Pairwise (fun a b => b.id < a.id)
          (load_transactions sample_store) ∧
        (load_expenses sample_store).Perm sample_store.expenses ∧
        List.Pairwise (fun a b => b.id < a.id)
          (load_expenses sample_store) ∧
        (load_payments sample_store).Perm sample_store.payments ∧
        List.Pairwise (fun a b => b.id < a.id)
          (load_payments sample_store)) :=
  ⟨⟨by decide, by decide, by decide⟩,
    C8_read_ordering sample_store (by decide) (by decide) (by decide)⟩

end InventoryPro
